import Mathlib

/-!
# Verification of the yatima module-resolution and definition-elaboration kernel

Shallow embedding of `src/parse/package.rs` and `src/repl.rs`.

The repository's surface lexer (`parse_name`, `parse_space`,
`parse_typed_definition`, `parse_expression` from `parse::term`), the
hashexpr codec, the `hashspace` content store, the `Package`/`Declaration`
data types with `merge_defs`/`merge_refs`/`refs_defs`, and the error type
(`parse::error`) are external collaborators whose sources are not part of
the two files above; they are modelled from the specification where noted.
The embedding works at declaration granularity: a source file is its raw
text plus the parsed package-header name plus the stream of declaration
syntaxes; lexical whitespace and keyword recognition are absorbed into that
tokenisation, and the nom control flow (`alt`, recoverable `Err::Error`,
panics of `parse_file`) is kept explicit.
-/

namespace Yatima

/-- Opaque term values produced by the external expression parser
(`parse::term`); the core hashes and stores them without inspecting them. -/
structure Term where
  code : Nat
deriving DecidableEq, Repr

abbrev Name := String

/-- A filesystem path as its list of components; the last component is the
file name (with extension). `PathBuf::parent` is dropping the last
component, `file_name` is the last component (none for an empty path or a
`..` component). -/
abbrev FilePath := List String

/-- Modelled from the spec: the hashexpr `Expr` encoding space of the
external codec. Terms, definition records, packages, declaration lists and
raw text all encode into this one space; `dnil`/`dcons` encode the
declaration list of a package. -/
inductive Content where
  | text : String → Content
  | term : Term → Content
  | defnRec : Option Nat → Name → String → Term → Term → Content
  | pack : Name → String → Content → Content → Content
  | dnil : Content
  | dcons : Content → Content → Content
  | dOpen : Name → String → Option (List Name) → Content → Content
  | dDefn : Name → Content → Content → Content
deriving DecidableEq, Repr

/-- Modelled from the spec: a `Link` is the structural hash of an encoded
value, a pure injective function of the encoding (`put(bytes) -> Link` is
"a pure function of content, deterministic, total"; identical content gives
the identical Link). The idealised collision-free hash is the content
itself, wrapped. -/
inductive Link where
  | put : Content → Link
deriving DecidableEq, Repr

/-- Modelled from the spec: `hashspace::put`. -/
def put (c : Content) : Link := Link.put c

/-- Modelled from the spec: one top-level unit of a package, either a fully
resolved import (`Open { name, alias_, with, from }`) or a fully elaborated
definition (`Defn { name, defn, term }`). The type itself lives in the
`crate::package` module, outside the two embedded files. -/
inductive Declaration where
  | openD (name : Name) (alias_ : String) (with_ : Option (List Name)) (from_ : Link)
  | defnD (name : Name) (defn : Link) (term : Link)
deriving DecidableEq, Repr

/-- Modelled from the spec: `Package { name, docs, source, decls }`. -/
structure Package where
  name : Name
  docs : String
  source : Link
  decls : List Declaration
deriving DecidableEq, Repr

/-- The definition record `Def { pos, name, docs, typ_, term }` of
`crate::term` (modelled from the spec; positions are abstracted to a
numeric marker at this granularity). -/
structure Def where
  pos : Option Nat
  name : Name
  docs : String
  typ_ : Term
  term : Term
deriving DecidableEq, Repr

/-- Modelled from the spec: encoding a term for storage. -/
def Term.encode (t : Term) : Content := Content.term t

/-- Modelled from the spec: encoding a full definition record. -/
def Def.encode (d : Def) : Content :=
  Content.defnRec d.pos d.name d.docs d.typ_ d.term

/-- Modelled from the spec: encoding one declaration. -/
def Declaration.encode : Declaration → Content
  | .openD n a w (.put c) => .dOpen n a w c
  | .defnD n (.put c1) (.put c2) => .dDefn n c1 c2

/-- Modelled from the spec: encoding a declaration list. -/
def declsEncode : List Declaration → Content
  | [] => .dnil
  | d :: rest => .dcons d.encode (declsEncode rest)

/-- Modelled from the spec: encoding a whole package. -/
def Package.encode (p : Package) : Content :=
  match p.source with
  | .put sc => .pack p.name p.docs sc (declsEncode p.decls)

/-- Modelled from the spec: decoding one declaration. -/
def declDecode : Content → Option Declaration
  | .dOpen n a w c => some (.openD n a w (.put c))
  | .dDefn n c1 c2 => some (.defnD n (.put c1) (.put c2))
  | _ => none

/-- Modelled from the spec: decoding a declaration list. -/
def declsDecode : Content → Option (List Declaration)
  | .dnil => some []
  | .dcons c rest => do
      let d ← declDecode c
      let ds ← declsDecode rest
      some (d :: ds)
  | _ => none

/-- Modelled from the spec: decoding a package from its encoding. -/
def Package.decode : Content → Option Package
  | .pack n docs sc dc => do
      let ds ← declsDecode dc
      some ⟨n, docs, .put sc, ds⟩
  | _ => none

/-- Modelled from the spec: `Package::get_link` fetches the bytes stored at
a Link from the content store and decodes them as a package; any retrieval
or decode failure surfaces as an embedding error (here: `none`). -/
def Package.get_link : Link → Option Package
  | .put c => Package.decode c

/-- The reference table (`Refs = HashMap<String, (Link, Link)>`): qualified
name to (definition Link, value-term Link), modelled as an association list
with overwriting insert. -/
abbrev Refs := List (Name × Link × Link)

/-- The definition store (`Defs = HashMap<Link, Def>`), modelled as an
association list with overwriting insert. -/
abbrev Defs := List (Link × Def)

/-- `im::HashMap::insert` for the reference table: the new binding replaces
any existing binding of the same name. -/
def refsInsert (n : Name) (v : Link × Link) (rs : Refs) : Refs :=
  (n, v) :: rs.filter (fun e => e.1 ≠ n)

def refsLookup (n : Name) (rs : Refs) : Option (Link × Link) :=
  (rs.find? (fun e => e.1 = n)).map (fun e => e.2)

/-- `im::HashMap::insert` for the definition store. -/
def defsInsert (l : Link) (d : Def) (ds : Defs) : Defs :=
  (l, d) :: ds.filter (fun e => e.1 ≠ l)

def defsLookup (l : Link) (ds : Defs) : Option Def :=
  (ds.find? (fun e => e.1 = l)).map (fun e => e.2)

/-- Modelled from the spec: `merge_defs` is union keyed by Link (idempotent
because identical content collapses to the identical key); the imported
entries are inserted into the current store. -/
def merge_defs (ds : Defs) (imported : Defs) : Defs :=
  imported.foldl (fun acc e => defsInsert e.1 e.2 acc) ds

/-- Modelled from the spec: `merge_refs` — if a `with` selection set is
present only those names are retained; if the alias_ is non-empty every
retained name is re-exposed as `alias_.name`; the result is unioned into the
current table. The precedence (selection filters before aliasing) and the
collision policy (the imported binding overwrites) are the deterministic
choices the spec leaves open in §9. -/
def merge_refs (rs : Refs) (imported : Refs) (alias_ : String)
    (with_ : Option (List Name)) : Refs :=
  let selected := match with_ with
    | none => imported
    | some ns => imported.filter (fun e => e.1 ∈ ns)
  let renamed := selected.map
    (fun e => (if alias_ = "" then e.1 else alias_ ++ "." ++ e.1, e.2))
  renamed.foldl (fun acc e => refsInsert e.1 e.2 acc) rs

/-- Modelled from the spec: `Package::refs_defs` re-derives the imported
package's own (reference table, definition store) by re-elaborating its
declaration list; a nested `Open` fetches its package from the store and
recurses; any fetch or decode failure is an embedding error (`none`). Fuel
bounds the nesting depth of stored packages. -/
def refs_defsGo (recP : Package → Option (Refs × Defs)) :
    List Declaration → Refs → Defs → Option (Refs × Defs)
  | [], rs, ds => some (rs, ds)
  | .defnD n defn term :: rest, rs, ds =>
      match defn with
      | .put (.defnRec pos nm docs ty tm) =>
          refs_defsGo recP rest (refsInsert n (defn, term) rs)
            (defsInsert defn ⟨pos, nm, docs, ty, tm⟩ ds)
      | _ => none
  | .openD _ alias_ w from_ :: rest, rs, ds => do
      let pack ← Package.get_link from_
      let (irs, ids) ← recP pack
      refs_defsGo recP rest (merge_refs rs irs alias_ w) (merge_defs ds ids)

/-- See `refs_defsGo`; fuel bounds the nesting depth of stored packages. -/
def refs_defs : Nat → Package → Option (Refs × Defs)
  | 0, _ => none
  | fuel + 1, p => refs_defsGo (refs_defs fuel) p.decls [] []

/-- `PackageEnv { path, open }`: the current file's path plus the set of
ancestor paths currently mid-resolution (the field is called `open` in the
source; `open` is a Lean keyword). -/
structure PackageEnv where
  path : FilePath
  opens : List FilePath
deriving DecidableEq, Repr

/-- `PackageEnv::new`: fresh environment with an empty ancestor set. -/
def PackageEnv.new (path : FilePath) : PackageEnv := ⟨path, []⟩

/-- `PackageEnv::set_path`. -/
def PackageEnv.set_path (e : PackageEnv) (path : FilePath) : PackageEnv :=
  ⟨path, e.opens⟩

/-- `ParseErrorKind` (the error type lives in `parse::error`, outside the
embedded files; the kinds are those the embedded code constructs, plus
`tagMismatch`/`termError` standing for the lexical failures of the external
keyword and term parsers). -/
inductive ParseErrorKind where
  | tagMismatch
  | termError
  | expectedImportLink
  | embeddingError
  | misnamedImport (name : Name) (link : Link) (actual : Name)
  | importCycle (path : FilePath)
  | malformedPath
  | misnamedPackage (name : Name)
deriving DecidableEq, Repr

/-- A process panic: `parse_file` calls `expect("file not found")` on a
missing file and `panic!("Error parsing file {path}: {e}")` on a parse
error. `outOfFuel` is an artifact of the fuel that makes the model total;
every terminating run of the source is reproduced with enough fuel. -/
inductive Panic where
  | fileNotFound (path : FilePath)
  | parseFailure (path : FilePath) (e : ParseErrorKind)
  | outOfFuel
deriving DecidableEq, Repr

/-- Outcome of a parser: a process panic (Rust unwinding, not a value), a
recoverable `nom::Err::Error`, or success. No code in the embedded files
constructs `Err::Failure`. -/
inductive PResult (α : Type) where
  | panic (p : Panic)
  | perr (e : ParseErrorKind)
  | ok (v : α)
deriving DecidableEq, Repr

/-- One declaration's surface syntax, the granularity of the embedding: a
`def` with the names its body mentions and the value/type terms the
external parser would produce, or an `open` with optional alias_, selection
set and explicit link. -/
inductive DeclSyntax where
  | defS (name : Name) (uses : List Name) (term : Term) (typ_ : Term)
  | openS (name : Name) (alias_ : Option Name) (with_ : Option (List Name))
      (from_ : Option Link)
deriving DecidableEq, Repr

/-- A source file as the embedding sees it: its raw text (stored to obtain
the source Link), the name of its `package <name> where` header, and its
declaration stream. -/
structure SourceFile where
  text : String
  header : Name
  decls : List DeclSyntax
deriving DecidableEq, Repr

/-- The filesystem: paths to files. -/
abbrev FS := FilePath → Option SourceFile

/-- `Path::file_name`: the last component, none for an empty path or when
the last component is `..`. -/
def fileName (p : FilePath) : Option String :=
  match p.getLast? with
  | none => none
  | some s => if s = ".." then none else some s

/-- `PathBuf::set_extension("ya")` after pushing dot-free segments: the
last component gains the `.ya` extension. -/
def setExtYa : FilePath → FilePath
  | [] => []
  | [s] => [s ++ ".ya"]
  | s :: rest => s :: setExtYa rest

/-- `str::split('.')` on the characters of an import name (an executable
restatement of `String.splitOn "."`): the maximal dot-free runs, with empty
runs kept. -/
def splitDotsAux : List Char → List Char → List String
  | [], acc => [String.mk acc.reverse]
  | c :: rest, acc =>
    if c = '.' then String.mk acc.reverse :: splitDotsAux rest []
    else splitDotsAux rest (c :: acc)

/-- `name.split(".")` of the source. -/
def splitDots (name : Name) : List String := splitDotsAux name.data []

/-- The candidate path of a path import: each dot-separated segment of
the import name becomes a nested component relative to the importing
file's parent directory, with the fixed `.ya` extension
(`env.path.parent() / n1 / ... / nk` then `set_extension("ya")`). -/
def resolvePath (base : FilePath) (name : Name) : FilePath :=
  setExtYa (base.dropLast ++ splitDots name)

/-- Modelled from the spec: `parse_typed_definition` of the external term
parser resolves the names the definition body mentions against the current
reference table and yields the (name, value term, type term) triple; an
unresolvable name is a recoverable parse error. -/
def parse_typed_definition (refs : Refs) (name : Name) (uses : List Name)
    (term typ_ : Term) : Option (Name × Term × Term) :=
  if uses.all (fun u => (refsLookup u refs).isSome) then
    some (name, term, typ_)
  else none

/-- `parse_defn`: recognise `def`, run the external typed-definition parser
against the current reference table, build the definition record with empty
docs, store the type term (its link is discarded), the value term and the
full record, insert `name -> (defn Link, term Link)` into the reference
table and `defn Link -> record` into the definition store, and produce
`Declaration::Defn { name, defn, term }`. -/
def parse_defn (refs : Refs) (defs : Defs) (tok : DeclSyntax) :
    PResult (Declaration × Refs × Defs) :=
  match tok with
  | .openS .. => .perr .tagMismatch
  | .defS nm uses tm ty =>
    match parse_typed_definition refs nm uses tm ty with
    | none => .perr .termError
    | some (name, term, typ_) =>
      let pos : Option Nat := some 0
      let d : Def := ⟨pos, name, "", typ_, term⟩
      let def_name := d.name
      let typ_enc := Term.encode d.typ_
      let _type_link := put typ_enc
      let trm_enc := Term.encode d.term
      let term_link := put trm_enc
      let def_enc := Def.encode d
      let def_link := put def_enc
      let def_decl := Declaration.defnD def_name def_link term_link
      .ok (def_decl, refsInsert def_name (def_link, term_link) refs,
           defsInsert def_link d defs)

/-- Modelled from the spec: `ParseError::or`, the combinator `alt` uses
when every branch fails (`parse::error` is outside the embedded files);
nom's default keeps the error of the last branch tried. -/
def errOr (_e1 e2 : ParseErrorKind) : ParseErrorKind := e2

instance : DecidableEq (Link × Package × Defs × Refs) := instDecidableEqProd

/-- Result type of the file entry point: the four-tuple
`(package Link, Package, definition store, reference table)`. -/
abbrev PkgResult := PResult (Link × Package × Defs × Refs)

/-- The body of `parse_open` with the recursive call to `parse_file`
abstracted as `recFile` (the wrappers below tie the knot through the fuel,
keeping the model structurally recursive and hence executable): recognise
`open`, read name / optional alias / optional selection / optional explicit
link. With an explicit link: fetch and decode the package (failure is an
embedding error), check the declared name, re-derive its (refs, defs) via
`refs_defs`, merge. Without: build the candidate path, fail with
`ImportCycle` when it is already in the ancestor set, otherwise recursively
parse that file with the extended ancestor set and merge its results. -/
def parse_openAux (recRD : Package → Option (Refs × Defs))
    (recFile : FS → PackageEnv → PkgResult) (fs : FS) (refs : Refs)
    (defs : Defs) (env : PackageEnv) (tok : DeclSyntax) :
    PResult (Declaration × Refs × Defs) :=
  match tok with
  | .defS .. => .perr .tagMismatch
  | .openS name aliasOpt with_ fromOpt =>
    let alias_ := aliasOpt.getD ""
    match fromOpt with
    | some from_ =>
      match Package.get_link from_ with
      | none => .perr .embeddingError
      | some pack =>
        if name ≠ pack.name then
          .perr (.misnamedImport name from_ pack.name)
        else
          match recRD pack with
          | none => .perr .embeddingError
          | some (import_refs, import_defs) =>
            let new_defs := merge_defs defs import_defs
            let new_refs := merge_refs refs import_refs alias_ with_
            .ok (.openD name alias_ with_ from_, new_refs, new_defs)
    | none =>
      let path := resolvePath env.path name
      if path ∈ env.opens then .perr (.importCycle path)
      else
        let env2 : PackageEnv := ⟨path, path :: env.opens⟩
        match recFile fs env2 with
        | .panic p => .panic p
        | .perr e => .panic (.parseFailure env2.path e)
        | .ok (link, _p, import_defs, import_refs) =>
          let new_defs := merge_defs defs import_defs
          let new_refs := merge_refs refs import_refs alias_ with_
          .ok (.openD name alias_ with_ link, new_refs, new_defs)

/-- The declaration alternation of `parse_package`,
`alt((parse_defn(refs, defs), parse_open(refs, defs, env)))`: the
definition branch first; when it fails recoverably the import branch runs
against the very same `refs`/`defs` the definition branch started from. -/
def altDeclAux (recRD : Package → Option (Refs × Defs))
    (recFile : FS → PackageEnv → PkgResult) (fs : FS) (refs : Refs)
    (defs : Defs) (env : PackageEnv) (tok : DeclSyntax) :
    PResult (Declaration × Refs × Defs) :=
  match parse_defn refs defs tok with
  | .ok v => .ok v
  | .panic p => .panic p
  | .perr e1 =>
    match parse_openAux recRD recFile fs refs defs env tok with
    | .ok v => .ok v
    | .panic p => .panic p
    | .perr e2 => .perr (errOr e1 e2)

/-- The declaration loop of `parse_package`: at end of input assemble
`Package { name, docs: "", source, decls }`, store it, and return
`(package Link, Package, defs, refs)`; otherwise parse one declaration via
the alternation (against the same `env` every iteration) and continue with
the updated namespace and the declaration appended. -/
def parsePackageLoopAux (recRD : Package → Option (Refs × Defs))
    (recFile : FS → PackageEnv → PkgResult) (fs : FS) (env : PackageEnv)
    (name : Name) (source_link : Link) :
    List Declaration → Refs → Defs → List DeclSyntax → PkgResult
  | decls, refs, defs, [] =>
    let pack : Package := ⟨name, "", source_link, decls⟩
    let pack_link := put pack.encode
    .ok (pack_link, pack, defs, refs)
  | decls, refs, defs, tok :: rest =>
    match altDeclAux recRD recFile fs refs defs env tok with
    | .panic p => .panic p
    | .perr e => .perr e
    | .ok (decl, new_refs, new_defs) =>
      parsePackageLoopAux recRD recFile fs env name source_link
        (decls ++ [decl]) new_refs new_defs rest

/-- `parse_package`: read the `package <name> where` header, fail with
`MalformedPath` when the file has no extractable base name and with
`MisnamedPackage(name)` when `<name>.ya` differs from it, then run the
declaration loop from an empty namespace. -/
def parse_packageAux (recRD : Package → Option (Refs × Defs))
    (recFile : FS → PackageEnv → PkgResult) (fs : FS) (env : PackageEnv)
    (source_link : Link) (f : SourceFile) : PkgResult :=
  let name := f.header
  match fileName env.path with
  | none => .perr .malformedPath
  | some file_name =>
    if name ++ ".ya" ≠ file_name then .perr (.misnamedPackage name)
    else
      parsePackageLoopAux recRD recFile fs env name source_link [] [] []
        f.decls

/-- `parse_file`: read the file at `env.path` (a missing file is the
`expect("file not found")` panic), store its raw text to obtain the source
Link, run `parse_package`; a parse error becomes the
`panic!("Error parsing file {path}: {e}")` panic. -/
def parse_fileAux (recRD : Package → Option (Refs × Defs))
    (recFile : FS → PackageEnv → PkgResult) (fs : FS) (env : PackageEnv) :
    PkgResult :=
  match fs env.path with
  | none => .panic (.fileNotFound env.path)
  | some f =>
    let source_link := put (Content.text f.text)
    match parse_packageAux recRD recFile fs env source_link f with
    | .ok v => .ok v
    | .perr e => .panic (.parseFailure env.path e)
    | .panic p => .panic p

/-- `parse_file` at the given recursion depth: at depth 0 a further
path import would be unbounded recursion, which the fuel cuts off with the
`outOfFuel` artifact (every terminating run of the source is reproduced
with enough fuel). -/
def fileOrFuel : Nat → FS → PackageEnv → PkgResult
  | 0 => fun _ _ => .panic .outOfFuel
  | fuel + 1 => parse_fileAux (refs_defs fuel) (fileOrFuel fuel)

/-- `parse_open` of the source, with fuel bounding the recursion depth. -/
def parse_open (fuel : Nat) (fs : FS) (refs : Refs) (defs : Defs)
    (env : PackageEnv) (tok : DeclSyntax) :
    PResult (Declaration × Refs × Defs) :=
  parse_openAux (refs_defs fuel) (fileOrFuel fuel) fs refs defs env tok

/-- The declaration alternation of `parse_package`, at the given fuel. -/
def altDecl (fuel : Nat) (fs : FS) (refs : Refs) (defs : Defs)
    (env : PackageEnv) (tok : DeclSyntax) :
    PResult (Declaration × Refs × Defs) :=
  altDeclAux (refs_defs fuel) (fileOrFuel fuel) fs refs defs env tok

/-- The declaration loop of `parse_package`, at the given fuel. -/
def parsePackageLoop (fuel : Nat) (fs : FS) (env : PackageEnv) (name : Name)
    (source_link : Link) (decls : List Declaration) (refs : Refs)
    (defs : Defs) (i : List DeclSyntax) : PkgResult :=
  parsePackageLoopAux (refs_defs fuel) (fileOrFuel fuel) fs env name
    source_link decls refs defs i

/-- `parse_package` of the source, at the given fuel. -/
def parse_package (fuel : Nat) (fs : FS) (env : PackageEnv)
    (source_link : Link) (f : SourceFile) : PkgResult :=
  parse_packageAux (refs_defs fuel) (fileOrFuel fuel) fs env source_link f

/-- The file entry point `parse_file`, at the given fuel. -/
def parse_file (fuel : Nat) (fs : FS) (env : PackageEnv) : PkgResult :=
  parse_fileAux (refs_defs fuel) (fileOrFuel fuel) fs env

/-! ## The REPL (`src/repl.rs`) -/

/-- The REPL `Command` type. -/
inductive Command where
  | eval (t : Term)
  | type (t : Term)
  | load (p : FilePath)
  | decl (d : Declaration)
  | browseC
  | helpC
  | quitC
deriving DecidableEq, Repr

/-- One REPL input line, pre-lexed at the same granularity as declarations:
the `:browse` keyword, the `:quit` keyword, a declaration, or a bare
expression (with the names it mentions and the term the external
expression parser would produce). -/
inductive ReplLine where
  | browseTok
  | quitTok
  | declTok (d : DeclSyntax)
  | exprTok (uses : List Name) (t : Term)
deriving DecidableEq, Repr

/-- Modelled from the spec: `parse_expression` of the external term parser
resolves the names a bare expression mentions against the live reference
table. -/
def parse_expression (refs : Refs) (uses : List Name) (t : Term) :
    Option Term :=
  if uses.all (fun u => (refsLookup u refs).isSome) then some t else none

/-- `parse_decl` of the REPL: the same `alt((parse_defn, parse_open))` as
the package loop, wrapped as `Command::Decl`. -/
def parse_decl (fuel : Nat) (fs : FS) (defs : Defs) (refs : Refs)
    (env : PackageEnv) (line : ReplLine) :
    PResult (Command × Refs × Defs) :=
  match line with
  | .declTok tok =>
    match altDecl fuel fs refs defs env tok with
    | .panic p => .panic p
    | .perr e => .perr e
    | .ok (decl, new_refs, new_defs) => .ok (.decl decl, new_refs, new_defs)
  | _ => .perr .tagMismatch

/-- `parse_eval` of the REPL: parse a bare expression against the current
reference table and return the namespace unchanged
(`(Command::Eval(term), refs.to_owned(), defs.to_owned())`). -/
def parse_eval (defs : Defs) (refs : Refs) (line : ReplLine) :
    PResult (Command × Refs × Defs) :=
  match line with
  | .exprTok uses t =>
    match parse_expression refs uses t with
    | none => .perr .termError
    | some term => .ok (.eval term, refs, defs)
  | _ => .perr .tagMismatch

/-- `parse_browse` of the REPL: recognise `:browse` and return the
namespace unchanged. -/
def parse_browse (defs : Defs) (refs : Refs) (line : ReplLine) :
    PResult (Command × Refs × Defs) :=
  match line with
  | .browseTok => .ok (.browseC, refs, defs)
  | _ => .perr .tagMismatch

/-- `parse_quit` of the REPL: recognise `:quit` and return the namespace
unchanged. -/
def parse_quit (defs : Defs) (refs : Refs) (line : ReplLine) :
    PResult (Command × Refs × Defs) :=
  match line with
  | .quitTok => .ok (.quitC, refs, defs)
  | _ => .perr .tagMismatch

/-! ## Specification-side description of the declaration loop -/

/-- From the spec's words: "parse exactly one declaration ... and advance
the accumulated Namespace and declaration list accordingly" —
`DeclsParsed fuel fs env i refs defs L refs2 defs2` holds when processing
the stream `i` from the namespace `(refs, defs)` parses exactly the
declarations `L`, in order, ending in the namespace `(refs2, defs2)`. -/
inductive DeclsParsed (fuel : Nat) (fs : FS) (env : PackageEnv) :
    List DeclSyntax → Refs → Defs → List Declaration → Refs → Defs →
    Prop where
  | nil (refs : Refs) (defs : Defs) :
      DeclsParsed fuel fs env [] refs defs [] refs defs
  | cons {tok : DeclSyntax} {rest : List DeclSyntax} {refs : Refs}
      {defs : Defs} {decl : Declaration} {refs1 : Refs} {defs1 : Defs}
      {L : List Declaration} {refs2 : Refs} {defs2 : Defs}
      (hstep : altDecl fuel fs refs defs env tok = .ok (decl, refs1, defs1))
      (hrest : DeclsParsed fuel fs env rest refs1 defs1 L refs2 defs2) :
      DeclsParsed fuel fs env (tok :: rest) refs defs (decl :: L) refs2 defs2

/-! ## Concrete fixtures used by witnesses and counterexamples -/

/-- `a.ya` of the two-file cycle: `package a where open b`. -/
def fileCycA : SourceFile :=
  ⟨"package a where open b", "a", [.openS "b" none none none]⟩

/-- `b.ya` of the two-file cycle: `package b where open a`. -/
def fileCycB : SourceFile :=
  ⟨"package b where open a", "b", [.openS "a" none none none]⟩

/-- A filesystem holding the mutually importing pair `a.ya` / `b.ya`. -/
def fsCyc : FS := fun p =>
  if p = ["a.ya"] then some fileCycA
  else if p = ["b.ya"] then some fileCycB
  else none

/-- `s.ya`, a file that path-imports itself: `package s where open s`. -/
def fileSelf : SourceFile :=
  ⟨"package s where open s", "s", [.openS "s" none none none]⟩

/-- A filesystem holding only the self-importing `s.ya`. -/
def fsSelf : FS := fun p => if p = ["s.ya"] then some fileSelf else none

/-- `b.ya` with a single definition `def x`. -/
def fileDefX : SourceFile :=
  ⟨"package b where def x", "b", [.defS "x" [] ⟨1⟩ ⟨2⟩]⟩

/-- `a.ya` importing `b` twice as sibling declarations. -/
def fileTwiceB : SourceFile :=
  ⟨"package a where open b open b", "a",
   [.openS "b" none none none, .openS "b" none none none]⟩

/-- A filesystem where `a.ya` opens `b.ya` twice. -/
def fsSib : FS := fun p =>
  if p = ["a.ya"] then some fileTwiceB
  else if p = ["b.ya"] then some fileDefX
  else none

/-- The empty filesystem. -/
def fsEmpty : FS := fun _ => none

/-- A file declaring `package foo where` with no declarations. -/
def fileFoo : SourceFile := ⟨"package foo where", "foo", []⟩

/-- A file declaring `package bar where` with no declarations. -/
def fileBar : SourceFile := ⟨"package bar where", "bar", []⟩

/-- The definition record elaborated from `def x` in `fileDefX`. -/
def defX : Def := ⟨some 0, "x", "", ⟨2⟩, ⟨1⟩⟩

/-- The Link of the full record of `defX`. -/
def defLinkX : Link := put defX.encode

/-- The Link of the value term of `defX`. -/
def termLinkX : Link := put (Term.encode ⟨1⟩)

/-- The declaration elaborated from `def x` in `fileDefX`. -/
def declX : Declaration := .defnD "x" defLinkX termLinkX

/-- The source Link of `fileDefX`'s raw text. -/
def srcLinkB : Link := put (.text "package b where def x")

/-- The package assembled from `fileDefX`. -/
def packB : Package := ⟨"b", "", srcLinkB, [declX]⟩

/-- The reference table after elaborating `fileDefX`. -/
def refsX : Refs := [("x", defLinkX, termLinkX)]

/-- The definition store after elaborating `fileDefX`. -/
def defsX : Defs := [(defLinkX, defX)]

/-- A package named `real` with no declarations, as stored content. -/
def packReal : Package := ⟨"real", "", put (.text "real source"), []⟩

/-- The Link under which `packReal` is stored. -/
def linkReal : Link := put packReal.encode

/-! ## Helper lemmas -/

/-- `parse_file` at one fuel level less is exactly the recursion argument
the wrappers feed into the parsers. -/
lemma fileOrFuel_succ (fuel : Nat) :
    fileOrFuel (fuel + 1) = parse_file fuel := rfl

/-- A file whose first declaration is a path import whose candidate path is
already in the ancestor set fails, at any fuel, with the
`Error parsing file` panic carrying `ImportCycle` of that candidate. -/
lemma parse_file_open_cycle (fuel : Nat) (fs : FS) (env : PackageEnv)
    (f : SourceFile) (m : Name) (a : Option Name) (w : Option (List Name))
    (rest : List DeclSyntax)
    (hf : fs env.path = some f)
    (hn : fileName env.path = some (f.header ++ ".ya"))
    (hd : f.decls = .openS m a w none :: rest)
    (hmem : resolvePath env.path m ∈ env.opens) :
    parse_file fuel fs env =
      .panic (.parseFailure env.path
        (.importCycle (resolvePath env.path m))) := by
  simp only [parse_file, parse_fileAux, hf, parse_packageAux, hn, hd,
    parsePackageLoopAux, altDeclAux, parse_defn, parse_openAux, errOr]
  simp [hmem]

/-- A file whose first declaration is a path import with a fresh candidate
path recursively parses that file; when the recursive parse panics, the
panic propagates unchanged through the importing file's parse. -/
lemma parse_file_single_open_panic (fuel : Nat) (fs : FS) (env : PackageEnv)
    (f : SourceFile) (m : Name) (a : Option Name) (w : Option (List Name))
    (rest : List DeclSyntax) (q : Panic)
    (hf : fs env.path = some f)
    (hn : fileName env.path = some (f.header ++ ".ya"))
    (hd : f.decls = .openS m a w none :: rest)
    (hmem : resolvePath env.path m ∉ env.opens)
    (hpanic : parse_file fuel fs
        ⟨resolvePath env.path m, resolvePath env.path m :: env.opens⟩ =
      .panic q) :
    parse_file (fuel + 1) fs env = .panic q := by
  show parse_fileAux (refs_defs (fuel + 1)) (fileOrFuel (fuel + 1)) fs env =
    .panic q
  rw [fileOrFuel_succ]
  simp only [parse_fileAux, hf, parse_packageAux, hn, hd,
    parsePackageLoopAux, altDeclAux, parse_defn, parse_openAux]
  simp [hmem, hpanic]

/-- The definition branch never produces a `MisnamedPackage` error. -/
lemma parse_defn_no_misnamed (refs : Refs) (defs : Defs) (tok : DeclSyntax)
    (m : Name) : parse_defn refs defs tok ≠ .perr (.misnamedPackage m) := by
  cases tok with
  | openS n a w fr => simp [parse_defn]
  | defS n u t y =>
    by_cases hc : (u.all (fun x => (refsLookup x refs).isSome)) = true <;>
      simp [parse_defn, parse_typed_definition, hc]

/-- The import branch never produces a `MisnamedPackage` error (an inner
file's misnamed header surfaces as a panic, not as a parse error of the
current file). -/
lemma parse_openAux_no_misnamed (recRD : Package → Option (Refs × Defs))
    (recFile : FS → PackageEnv → PkgResult) (fs : FS) (refs : Refs)
    (defs : Defs) (env : PackageEnv) (tok : DeclSyntax) (m : Name) :
    parse_openAux recRD recFile fs refs defs env tok ≠
      .perr (.misnamedPackage m) := by
  cases tok with
  | defS n u t y => simp [parse_openAux]
  | openS n a w fr =>
    cases fr with
    | none =>
      simp only [parse_openAux]
      split
      · simp
      · split <;> simp
    | some l =>
      simp only [parse_openAux]
      cases hg : Package.get_link l with
      | none => simp
      | some pack =>
        simp only
        split
        · simp
        · split <;> simp

/-- The declaration alternation never produces a `MisnamedPackage`
error. -/
lemma altDeclAux_no_misnamed (recRD : Package → Option (Refs × Defs))
    (recFile : FS → PackageEnv → PkgResult) (fs : FS) (refs : Refs)
    (defs : Defs) (env : PackageEnv) (tok : DeclSyntax) (m : Name) :
    altDeclAux recRD recFile fs refs defs env tok ≠
      .perr (.misnamedPackage m) := by
  simp only [altDeclAux]
  cases hd : parse_defn refs defs tok with
  | ok v => simp
  | panic p => simp
  | perr e1 =>
    cases ho : parse_openAux recRD recFile fs refs defs env tok with
    | ok v => simp
    | panic p => simp
    | perr e2 =>
      have := parse_openAux_no_misnamed recRD recFile fs refs defs env tok m
      rw [ho] at this
      simp [errOr]
      intro hcon
      exact this (by rw [hcon])

/-- The declaration loop never produces a `MisnamedPackage` error: that
error can only come from the header check. -/
lemma parsePackageLoopAux_no_misnamed
    (recRD : Package → Option (Refs × Defs))
    (recFile : FS → PackageEnv → PkgResult) (fs : FS) (env : PackageEnv)
    (nm : Name) (sl : Link) :
    ∀ (i : List DeclSyntax) (acc : List Declaration) (refs : Refs)
      (defs : Defs) (m : Name),
      parsePackageLoopAux recRD recFile fs env nm sl acc refs defs i ≠
        .perr (.misnamedPackage m) := by
  intro i
  induction i with
  | nil => intro acc refs defs m; simp [parsePackageLoopAux]
  | cons tok rest ih =>
    intro acc refs defs m
    simp only [parsePackageLoopAux]
    cases hstep : altDeclAux recRD recFile fs refs defs env tok with
    | panic q => simp
    | perr e =>
      have := altDeclAux_no_misnamed recRD recFile fs refs defs env tok m
      rw [hstep] at this
      simp
      intro hcon
      exact this (by rw [hcon])
    | ok v =>
      obtain ⟨decl, refs1, defs1⟩ := v
      exact ih (acc ++ [decl]) refs1 defs1 m

/-- Every successful run of the declaration loop parses exactly one
declaration per input token, in order: the resulting package's declaration
list is the accumulator followed by the parsed declarations, and the
returned Link stores the resulting package. -/
lemma parsePackageLoop_ok (fuel : Nat) (fs : FS) (env : PackageEnv)
    (nm : Name) (sl : Link) :
    ∀ (i : List DeclSyntax) (acc : List Declaration) (refs : Refs)
      (defs : Defs) (l : Link) (p : Package) (ds : Defs) (rs : Refs),
      parsePackageLoop fuel fs env nm sl acc refs defs i =
        .ok (l, p, ds, rs) →
      ∃ L, DeclsParsed fuel fs env i refs defs L rs ds ∧
        p = ⟨nm, "", sl, acc ++ L⟩ ∧ l = put p.encode := by
  intro i
  induction i with
  | nil =>
    intro acc refs defs l p ds rs h
    simp [parsePackageLoop, parsePackageLoopAux] at h
    obtain ⟨hl, hp, hds, hrs⟩ := h
    subst hp hds hrs
    exact ⟨[], DeclsParsed.nil refs defs, by simp, hl.symm⟩
  | cons tok rest ih =>
    intro acc refs defs l p ds rs h
    simp only [parsePackageLoop, parsePackageLoopAux] at h
    cases hstep : altDeclAux (refs_defs fuel) (fileOrFuel fuel) fs refs defs
        env tok with
    | panic q => rw [hstep] at h; simp at h
    | perr e => rw [hstep] at h; simp at h
    | ok v =>
      obtain ⟨decl, refs1, defs1⟩ := v
      rw [hstep] at h
      obtain ⟨L, hL, hp, hl⟩ := ih (acc ++ [decl]) refs1 defs1 l p ds rs h
      exact ⟨decl :: L, DeclsParsed.cons hstep hL, by simp [hp], hl⟩

/-! ## The claims -/

/-- C1, counterexample: on the concrete two-file cycle (`a.ya` opens `b`,
`b.ya` opens `a`, both by relative path) the entry point run on `a.ya`
fails with `ImportCycle` naming `b.ya`'s resolved path — not `a.ya`'s
resolved path, refuting the claim as stated: the membership check first
fires when the innermost re-parse of `a` resolves its import of `b`, whose
candidate path `b.ya` is already in the ancestor set. -/
theorem c1_counterexample :
    parse_file 5 fsCyc (PackageEnv.new ["a.ya"]) =
        .panic (.parseFailure ["a.ya"] (.importCycle ["b.ya"])) ∧
    parse_file 5 fsCyc (PackageEnv.new ["a.ya"]) ≠
        .panic (.parseFailure ["a.ya"] (.importCycle ["a.ya"])) ∧
    resolvePath ["a.ya"] "b" = ["b.ya"] ∧
    resolvePath ["b.ya"] "a" = ["a.ya"] ∧
    (["b.ya"] : FilePath) ≠ ["a.ya"] :=
  ⟨rfl, by decide, rfl, rfl, by decide⟩

/-- C1 (amended): for every pair of files where `a` imports `b` by relative
path and `b` imports `a` by relative path, running the file entry point on
`a` fails with `ImportCycle` naming `b`'s resolved path (the candidate
path whose membership in the ancestor set is first detected); the
detection mechanism is exactly membership of the candidate path in the
current ImportEnvironment's ancestor set at the moment a path import is
resolved. -/
theorem c1_amended_thm (fuel : Nat) (fs : FS) (pa pb : FilePath)
    (fa fb : SourceFile) (mb ma : Name) (aa ab : Option Name)
    (wa wb : Option (List Name))
    (hpa : fs pa = some fa) (hpb : fs pb = some fb)
    (hna : fileName pa = some (fa.header ++ ".ya"))
    (hnb : fileName pb = some (fb.header ++ ".ya"))
    (hda : fa.decls = [.openS mb aa wa none])
    (hdb : fb.decls = [.openS ma ab wb none])
    (hra : resolvePath pa mb = pb)
    (hrb : resolvePath pb ma = pa)
    (hne : pa ≠ pb) :
    parse_file (fuel + 2) fs (PackageEnv.new pa) =
      .panic (.parseFailure pa (.importCycle pb)) := by
  have h3 : parse_file fuel fs ⟨pa, [pa, pb]⟩ =
      .panic (.parseFailure pa (.importCycle pb)) := by
    have h := parse_file_open_cycle fuel fs ⟨pa, [pa, pb]⟩ fa mb aa wa []
      hpa hna hda (by simp [hra])
    rwa [show (⟨pa, [pa, pb]⟩ : PackageEnv).path = pa from rfl, hra] at h
  have h2 : parse_file (fuel + 1) fs ⟨pb, [pb]⟩ =
      .panic (.parseFailure pa (.importCycle pb)) := by
    apply parse_file_single_open_panic fuel fs ⟨pb, [pb]⟩ fb ma ab wb [] _
      hpb hnb hdb
    · simp [hrb, hne]
    · rw [show (⟨pb, [pb]⟩ : PackageEnv).path = pb from rfl, hrb]
      exact h3
  apply parse_file_single_open_panic (fuel + 1) fs (PackageEnv.new pa) fa mb
    aa wa [] _ hpa hna hda
  · simp [PackageEnv.new]
  · rw [show (PackageEnv.new pa).path = pa from rfl, hra]
    show parse_file (fuel + 1) fs ⟨pb, [pb]⟩ = _
    exact h2

/-- C1, witness: the amended statement at the concrete cycle
`a.ya ↔ b.ya`. -/
theorem c1_witness :
    parse_file 5 fsCyc (PackageEnv.new ["a.ya"]) =
      .panic (.parseFailure ["a.ya"] (.importCycle ["b.ya"])) :=
  c1_amended_thm 3 fsCyc ["a.ya"] ["b.ya"] fileCycA fileCycB "b" "a"
    none none none none rfl rfl rfl rfl rfl rfl rfl rfl (by decide)

/-- C2: for every input file whose declarations all parse, the package
parser at end of input returns a Package whose name is the parsed header
name, whose docs field is the empty string, whose source field is the
raw-content Link passed in, and whose decls sequence is exactly the
declarations parsed, in file order; the package is stored (its Link is the
hash of its encoding) and the result is the four-tuple
`(package Link, Package, definition store, reference table)`. -/
theorem c2_thm (fuel : Nat) (fs : FS) (env : PackageEnv) (sl : Link)
    (f : SourceFile) (l : Link) (p : Package) (ds : Defs) (rs : Refs)
    (h : parse_package fuel fs env sl f = .ok (l, p, ds, rs)) :
    ∃ L, DeclsParsed fuel fs env f.decls [] [] L rs ds ∧
      p.name = f.header ∧ p.docs = "" ∧ p.source = sl ∧ p.decls = L ∧
      l = put p.encode := by
  simp only [parse_package, parse_packageAux] at h
  cases hfn : fileName env.path with
  | none => rw [hfn] at h; simp at h
  | some fn =>
    rw [hfn] at h
    dsimp only at h
    by_cases hne : f.header ++ ".ya" = fn
    · rw [if_neg (by simpa using hne)] at h
      obtain ⟨L, hL, hp, hl⟩ :=
        parsePackageLoop_ok fuel fs env f.header sl f.decls [] [] [] l p ds
          rs h
      exact ⟨L, hL, by simp [hp], by simp [hp], by simp [hp], by simp [hp],
        hl⟩
    · rw [if_pos (by simpa using hne)] at h
      simp at h

/-- C2, witness: the statement at the concrete one-definition file
`b.ya`. -/
theorem c2_witness :
    ∃ L, DeclsParsed 1 fsEmpty (PackageEnv.new ["b.ya"]) fileDefX.decls
        [] [] L refsX defsX ∧
      packB.name = fileDefX.header ∧ packB.docs = "" ∧
      packB.source = srcLinkB ∧ packB.decls = L ∧
      put packB.encode = put packB.encode :=
  c2_thm 1 fsEmpty (PackageEnv.new ["b.ya"]) srcLinkB fileDefX
    (put packB.encode) packB defsX refsX rfl

/-- C3: every successfully parsed `def` declaration computes three
encodings (type term, value term, full definition record, the latter built
with empty docs), inserts `name -> (defn Link, term Link)` into the
reference table and `defn Link -> record` into the definition store, and
produces `Declaration::Defn { name, defn, term }`, fully determined
without the type term's Link — which (when the type and value terms
differ) is distinct from both Links the Declaration carries. -/
theorem c3_thm (refs : Refs) (defs : Defs) (tok : DeclSyntax)
    (decl : Declaration) (refs2 : Refs) (defs2 : Defs)
    (h : parse_defn refs defs tok = .ok (decl, refs2, defs2)) :
    ∃ name uses term typ_,
      tok = .defS name uses term typ_ ∧
      decl = .defnD name (put (Def.encode ⟨some 0, name, "", typ_, term⟩))
        (put (Term.encode term)) ∧
      refs2 = refsInsert name
        (put (Def.encode ⟨some 0, name, "", typ_, term⟩),
         put (Term.encode term)) refs ∧
      defs2 = defsInsert (put (Def.encode ⟨some 0, name, "", typ_, term⟩))
        ⟨some 0, name, "", typ_, term⟩ defs ∧
      (⟨some 0, name, "", typ_, term⟩ : Def).docs = "" ∧
      (typ_ ≠ term →
        put (Term.encode typ_) ≠
          put (Def.encode ⟨some 0, name, "", typ_, term⟩) ∧
        put (Term.encode typ_) ≠ put (Term.encode term)) := by
  cases tok with
  | openS n a w f => simp [parse_defn] at h
  | defS nm uses tm ty =>
    refine ⟨nm, uses, tm, ty, rfl, ?_⟩
    by_cases hc : (uses.all (fun u => (refsLookup u refs).isSome)) = true
    · simp [parse_defn, parse_typed_definition, hc] at h
      obtain ⟨h1, h2, h3⟩ := h
      refine ⟨h1.symm, h2.symm, h3.symm, rfl, ?_⟩
      intro hne
      refine ⟨by simp [put, Term.encode, Def.encode], ?_⟩
      simp [put, Term.encode]
      exact hne
    · simp [parse_defn, parse_typed_definition, hc] at h

/-- C3, witness: the statement at the concrete declaration `def x`. -/
theorem c3_witness :
    ∃ name uses term typ_,
      DeclSyntax.defS "x" [] ⟨1⟩ ⟨2⟩ = .defS name uses term typ_ ∧
      declX = .defnD name (put (Def.encode ⟨some 0, name, "", typ_, term⟩))
        (put (Term.encode term)) ∧
      refsX = refsInsert name
        (put (Def.encode ⟨some 0, name, "", typ_, term⟩),
         put (Term.encode term)) [] ∧
      defsX = defsInsert (put (Def.encode ⟨some 0, name, "", typ_, term⟩))
        ⟨some 0, name, "", typ_, term⟩ [] ∧
      (⟨some 0, name, "", typ_, term⟩ : Def).docs = "" ∧
      (typ_ ≠ term →
        put (Term.encode typ_) ≠
          put (Def.encode ⟨some 0, name, "", typ_, term⟩) ∧
        put (Term.encode typ_) ≠ put (Term.encode term)) :=
  c3_thm [] [] (.defS "x" [] ⟨1⟩ ⟨2⟩) declX refsX defsX rfl

/-- C4: in the per-declaration alternation the definition branch is tried
first (its success is the alternation's result), and whenever it fails
recoverably the import branch is attempted against exactly the reference
table and definition store the definition branch started from — the
alternation's result is then exactly the import branch's result on the
original namespace. -/
theorem c4_thm (fuel : Nat) (fs : FS) (refs : Refs) (defs : Defs)
    (env : PackageEnv) (tok : DeclSyntax) :
    (∀ v, parse_defn refs defs tok = .ok v →
       altDecl fuel fs refs defs env tok = .ok v) ∧
    (∀ e, parse_defn refs defs tok = .perr e →
       altDecl fuel fs refs defs env tok =
         parse_open fuel fs refs defs env tok) := by
  constructor
  · intro v h
    simp [altDecl, altDeclAux, h]
  · intro e h
    simp only [altDecl, altDeclAux, h, parse_open]
    cases hpo : parse_openAux (refs_defs fuel) (fileOrFuel fuel) fs refs
        defs env tok <;> simp [errOr]

/-- C4, witness: on an `open` token the definition branch fails with a tag
mismatch and the alternation equals the import branch on the original
namespace. -/
theorem c4_witness :
    altDecl 1 fsEmpty [] [] (PackageEnv.new ["a.ya"])
        (.openS "b" none none none) =
      parse_open 1 fsEmpty [] [] (PackageEnv.new ["a.ya"])
        (.openS "b" none none none) :=
  (c4_thm 1 fsEmpty [] [] (PackageEnv.new ["a.ya"])
    (.openS "b" none none none)).2 .tagMismatch rfl

/-- C5: with an extractable base name, parsing the header fails with
`MisnamedPackage(header name)` exactly when `<header name>.ya` differs
from the base name, and `MisnamedPackage` never carries any other name;
with no extractable base name the parse fails with `MalformedPath`. -/
theorem c5_thm (fuel : Nat) (fs : FS) (env : PackageEnv) (sl : Link)
    (f : SourceFile) :
    (fileName env.path = none →
      parse_package fuel fs env sl f = .perr .malformedPath) ∧
    (∀ fn, fileName env.path = some fn →
      (parse_package fuel fs env sl f =
          .perr (.misnamedPackage f.header) ↔ f.header ++ ".ya" ≠ fn)) ∧
    (∀ m, parse_package fuel fs env sl f = .perr (.misnamedPackage m) →
      m = f.header) := by
  refine ⟨?_, ?_, ?_⟩
  · intro hfn
    simp [parse_package, parse_packageAux, hfn]
  · intro fn hfn
    constructor
    · intro h hcon
      simp only [parse_package, parse_packageAux, hfn] at h
      rw [if_neg (by simpa using hcon)] at h
      exact parsePackageLoopAux_no_misnamed (refs_defs fuel)
        (fileOrFuel fuel) fs env f.header sl f.decls [] [] [] f.header h
    · intro hne
      simp [parse_package, parse_packageAux, hfn, hne]
  · intro m h
    cases hfn : fileName env.path with
    | none => simp [parse_package, parse_packageAux, hfn] at h
    | some fn =>
      simp only [parse_package, parse_packageAux, hfn] at h
      by_cases hne : f.header ++ ".ya" = fn
      · rw [if_neg (by simpa using hne)] at h
        exact absurd h (parsePackageLoopAux_no_misnamed (refs_defs fuel)
          (fileOrFuel fuel) fs env f.header sl f.decls [] [] [] m)
      · rw [if_pos (by simpa using hne)] at h
        exact (show f.header = m by simpa using h).symm

/-- C5, witness: `foo.ya` declaring `package bar where` fails with
`MisnamedPackage("bar")`; `foo.ya` declaring `package foo where` passes
the misnaming check; an empty path fails with `MalformedPath`. -/
theorem c5_witness :
    parse_package 1 fsEmpty ⟨["foo.ya"], []⟩ srcLinkB fileBar =
        .perr (.misnamedPackage "bar") ∧
    ¬ parse_package 1 fsEmpty ⟨["foo.ya"], []⟩ srcLinkB fileFoo =
        .perr (.misnamedPackage "foo") ∧
    parse_package 1 fsEmpty ⟨[], []⟩ srcLinkB fileFoo =
        .perr .malformedPath :=
  ⟨((c5_thm 1 fsEmpty ⟨["foo.ya"], []⟩ srcLinkB fileBar).2.1 "foo.ya"
      rfl).mpr (by decide),
   fun h => (by decide : ¬ ("foo" ++ ".ya" ≠ "foo.ya"))
     (((c5_thm 1 fsEmpty ⟨["foo.ya"], []⟩ srcLinkB fileFoo).2.1 "foo.ya"
        rfl).mp h),
   (c5_thm 1 fsEmpty ⟨[], []⟩ srcLinkB fileFoo).1 rfl⟩

/-- C6: for every explicit-link import, a declared-name mismatch of the
fetched package fails with `MisnamedImport(syntactic name, link, actual
name)` in that order; when the names agree, resolution is exactly the
re-derivation of the imported namespace via `refs_defs` followed by the
merge (or an embedding error when the re-derivation fails). -/
theorem c6_thm (fuel : Nat) (fs : FS) (refs : Refs) (defs : Defs)
    (env : PackageEnv) (name : Name) (aliasOpt : Option Name)
    (w : Option (List Name)) (l : Link) (pack : Package)
    (hget : Package.get_link l = some pack) :
    (name ≠ pack.name →
      parse_open fuel fs refs defs env (.openS name aliasOpt w (some l)) =
        .perr (.misnamedImport name l pack.name)) ∧
    (name = pack.name →
      (∀ irs ids, refs_defs fuel pack = some (irs, ids) →
        parse_open fuel fs refs defs env (.openS name aliasOpt w (some l)) =
          .ok (.openD name (aliasOpt.getD "") w l,
               merge_refs refs irs (aliasOpt.getD "") w,
               merge_defs defs ids)) ∧
      (refs_defs fuel pack = none →
        parse_open fuel fs refs defs env (.openS name aliasOpt w (some l)) =
          .perr .embeddingError)) := by
  constructor
  · intro hne
    simp [parse_open, parse_openAux, hget, hne]
  · intro heq
    constructor
    · intro irs ids hrd
      simp [parse_open, parse_openAux, hget, heq, hrd]
    · intro hrd
      simp [parse_open, parse_openAux, hget, heq, hrd]

/-- C6, witness: importing the stored package named `real` under the
syntactic name `claimed` fails with `MisnamedImport("claimed", link,
"real")`; importing it under `real` succeeds with the merged namespace. -/
theorem c6_witness :
    parse_open 1 fsEmpty [] [] (PackageEnv.new ["a.ya"])
        (.openS "claimed" none none (some linkReal)) =
      .perr (.misnamedImport "claimed" linkReal "real") ∧
    parse_open 1 fsEmpty [] [] (PackageEnv.new ["a.ya"])
        (.openS "real" none none (some linkReal)) =
      .ok (.openD "real" "" none linkReal, merge_refs [] [] "" none,
           merge_defs [] []) :=
  ⟨(c6_thm 1 fsEmpty [] [] (PackageEnv.new ["a.ya"]) "claimed" none none
      linkReal packReal rfl).1 (by decide),
   ((c6_thm 1 fsEmpty [] [] (PackageEnv.new ["a.ya"]) "real" none none
      linkReal packReal rfl).2 rfl).1 [] [] rfl⟩

/-- C7: along one recursive chain of path imports the ancestor set
strictly grows (a repeated candidate is refused with `ImportCycle`, and a
fresh candidate recurses with the set extended by exactly that candidate),
while the declaration loop resolves every sibling declaration against the
file's own unextended environment — concretely, a file importing the same
module twice succeeds instead of reporting a cycle. -/
theorem c7_thm :
    (∀ (fuel : Nat) (fs : FS) (refs : Refs) (defs : Defs)
       (env : PackageEnv) (m : Name) (a : Option Name)
       (w : Option (List Name)),
       resolvePath env.path m ∈ env.opens →
       parse_open fuel fs refs defs env (.openS m a w none) =
         .perr (.importCycle (resolvePath env.path m))) ∧
    (∀ (fuel : Nat) (fs : FS) (refs : Refs) (defs : Defs)
       (env : PackageEnv) (m : Name) (a : Option Name)
       (w : Option (List Name)),
       resolvePath env.path m ∉ env.opens →
       parse_open (fuel + 1) fs refs defs env (.openS m a w none) =
         (match parse_file fuel fs
             ⟨resolvePath env.path m,
              resolvePath env.path m :: env.opens⟩ with
          | .panic p => .panic p
          | .perr e =>
            .panic (.parseFailure (resolvePath env.path m) e)
          | .ok (link, _p, import_defs, import_refs) =>
            .ok (.openD m (a.getD "") w link,
                 merge_refs refs import_refs (a.getD "") w,
                 merge_defs defs import_defs))) ∧
    (∀ (fuel : Nat) (fs : FS) (env : PackageEnv) (nm : Name) (sl : Link)
       (acc : List Declaration) (refs : Refs) (defs : Defs)
       (tok : DeclSyntax) (rest : List DeclSyntax),
       parsePackageLoop fuel fs env nm sl acc refs defs (tok :: rest) =
         (match altDecl fuel fs refs defs env tok with
          | .panic p => .panic p
          | .perr e => .perr e
          | .ok (decl, new_refs, new_defs) =>
            parsePackageLoop fuel fs env nm sl (acc ++ [decl]) new_refs
              new_defs rest)) ∧
    (∃ l p ds rs, parse_file 5 fsSib (PackageEnv.new ["a.ya"]) =
        .ok (l, p, ds, rs) ∧ p.decls.length = 2) := by
  refine ⟨?_, ?_, ?_, ?_⟩
  · intro fuel fs refs defs env m a w hmem
    simp [parse_open, parse_openAux, hmem]
  · intro fuel fs refs defs env m a w hmem
    simp only [parse_open, parse_openAux, fileOrFuel_succ]
    simp [hmem]
  · intro fuel fs env nm sl acc refs defs tok rest
    rfl
  · exact ⟨_, _, _, _, rfl, rfl⟩

/-- C7, witness: a repeated candidate path is refused with `ImportCycle`,
and a fresh candidate is parsed with the extended ancestor set (here: the
recursive parse hits the missing-file panic of `b.ya`). -/
theorem c7_witness :
    parse_open 1 fsEmpty [] [] ⟨["a.ya"], [["b.ya"]]⟩
        (.openS "b" none none none) =
      .perr (.importCycle ["b.ya"]) ∧
    parse_open 1 fsEmpty [] [] (PackageEnv.new ["a.ya"])
        (.openS "b" none none none) =
      .panic (.fileNotFound ["b.ya"]) :=
  ⟨c7_thm.1 1 fsEmpty [] [] ⟨["a.ya"], [["b.ya"]]⟩ "b" none none
     (by decide),
   (c7_thm.2.1 0 fsEmpty [] [] (PackageEnv.new ["a.ya"]) "b" none none
     (by decide)).trans rfl⟩

/-- C8: a file with two `def` declarations of the same name does not fail
on the second: the loop succeeds and the second insertion overwrites the
first, so the name maps to the second definition's (defn Link, term
Link). -/
theorem c8_thm (fuel : Nat) (fs : FS) (env : PackageEnv) (nm : Name)
    (sl : Link) (refs : Refs) (defs : Defs) (n : Name)
    (u1 u2 : List Name) (tm1 ty1 tm2 ty2 : Term)
    (h1 : u1.all (fun u => (refsLookup u refs).isSome) = true)
    (h2 : u2.all (fun u => (refsLookup u
        (refsInsert n (put (Def.encode ⟨some 0, n, "", ty1, tm1⟩),
          put (Term.encode tm1)) refs)).isSome) = true) :
    ∃ l p ds,
      parsePackageLoop fuel fs env nm sl [] refs defs
          [.defS n u1 tm1 ty1, .defS n u2 tm2 ty2] =
        .ok (l, p, ds,
          refsInsert n (put (Def.encode ⟨some 0, n, "", ty2, tm2⟩),
            put (Term.encode tm2))
            (refsInsert n (put (Def.encode ⟨some 0, n, "", ty1, tm1⟩),
              put (Term.encode tm1)) refs)) ∧
      refsLookup n
          (refsInsert n (put (Def.encode ⟨some 0, n, "", ty2, tm2⟩),
            put (Term.encode tm2))
            (refsInsert n (put (Def.encode ⟨some 0, n, "", ty1, tm1⟩),
              put (Term.encode tm1)) refs)) =
        some (put (Def.encode ⟨some 0, n, "", ty2, tm2⟩),
          put (Term.encode tm2)) := by
  refine ⟨put (Package.mk nm "" sl
      [.defnD n (put (Def.encode ⟨some 0, n, "", ty1, tm1⟩))
        (put (Term.encode tm1)),
       .defnD n (put (Def.encode ⟨some 0, n, "", ty2, tm2⟩))
        (put (Term.encode tm2))]).encode,
    Package.mk nm "" sl
      [.defnD n (put (Def.encode ⟨some 0, n, "", ty1, tm1⟩))
        (put (Term.encode tm1)),
       .defnD n (put (Def.encode ⟨some 0, n, "", ty2, tm2⟩))
        (put (Term.encode tm2))],
    defsInsert (put (Def.encode ⟨some 0, n, "", ty2, tm2⟩))
      ⟨some 0, n, "", ty2, tm2⟩
      (defsInsert (put (Def.encode ⟨some 0, n, "", ty1, tm1⟩))
        ⟨some 0, n, "", ty1, tm1⟩ defs), ?_, ?_⟩
  · simp [parsePackageLoop, parsePackageLoopAux, altDeclAux, parse_defn,
      parse_typed_definition, h1, h2]
  · simp [refsLookup, refsInsert, List.find?]

/-- C8, witness: the statement at two concrete `def x` declarations. -/
theorem c8_witness :
    ∃ l p ds,
      parsePackageLoop 1 fsEmpty (PackageEnv.new ["c.ya"]) "c" srcLinkB
          [] [] [] [.defS "x" [] ⟨1⟩ ⟨2⟩, .defS "x" [] ⟨3⟩ ⟨4⟩] =
        .ok (l, p, ds,
          refsInsert "x" (put (Def.encode ⟨some 0, "x", "", ⟨4⟩, ⟨3⟩⟩),
            put (Term.encode ⟨3⟩))
            (refsInsert "x" (put (Def.encode ⟨some 0, "x", "", ⟨2⟩, ⟨1⟩⟩),
              put (Term.encode ⟨1⟩)) [])) ∧
      refsLookup "x"
          (refsInsert "x" (put (Def.encode ⟨some 0, "x", "", ⟨4⟩, ⟨3⟩⟩),
            put (Term.encode ⟨3⟩))
            (refsInsert "x" (put (Def.encode ⟨some 0, "x", "", ⟨2⟩, ⟨1⟩⟩),
              put (Term.encode ⟨1⟩)) [])) =
        some (put (Def.encode ⟨some 0, "x", "", ⟨4⟩, ⟨3⟩⟩),
          put (Term.encode ⟨3⟩)) :=
  c8_thm 1 fsEmpty (PackageEnv.new ["c.ya"]) "c" srcLinkB [] [] "x" [] []
    ⟨1⟩ ⟨2⟩ ⟨3⟩ ⟨4⟩ rfl rfl

/-- C9: the root ImportEnvironment's ancestor set is empty, so a file that
path-imports itself passes the first cycle check and is re-parsed once;
`ImportCycle` with its own path is raised inside that inner parse (whose
ancestor set already holds the path), and the whole run fails with exactly
that inner panic. -/
theorem c9_thm (fuel : Nat) (fs : FS) (p : FilePath) (f : SourceFile)
    (m : Name) (a : Option Name) (w : Option (List Name))
    (rest : List DeclSyntax)
    (hf : fs p = some f)
    (hn : fileName p = some (f.header ++ ".ya"))
    (hd : f.decls = .openS m a w none :: rest)
    (hself : resolvePath p m = p) :
    (PackageEnv.new p).opens = [] ∧
    resolvePath p m ∉ (PackageEnv.new p).opens ∧
    parse_file fuel fs ⟨p, [p]⟩ =
      .panic (.parseFailure p (.importCycle p)) ∧
    parse_file (fuel + 1) fs (PackageEnv.new p) =
      .panic (.parseFailure p (.importCycle p)) := by
  have h3 : parse_file fuel fs ⟨p, [p]⟩ =
      .panic (.parseFailure p (.importCycle p)) := by
    have h := parse_file_open_cycle fuel fs ⟨p, [p]⟩ f m a w rest hf hn hd
      (by simp [hself])
    rwa [show (⟨p, [p]⟩ : PackageEnv).path = p from rfl, hself] at h
  refine ⟨rfl, by simp [PackageEnv.new], h3, ?_⟩
  apply parse_file_single_open_panic fuel fs (PackageEnv.new p) f m a w
    rest _ hf hn hd
  · simp [PackageEnv.new]
  · rw [show (PackageEnv.new p).path = p from rfl, hself]
    exact h3

/-- C9, witness: the statement at the concrete self-importing `s.ya`. -/
theorem c9_witness :
    (PackageEnv.new ["s.ya"]).opens = [] ∧
    resolvePath ["s.ya"] "s" ∉ (PackageEnv.new ["s.ya"]).opens ∧
    parse_file 4 fsSelf ⟨["s.ya"], [["s.ya"]]⟩ =
      .panic (.parseFailure ["s.ya"] (.importCycle ["s.ya"])) ∧
    parse_file 5 fsSelf (PackageEnv.new ["s.ya"]) =
      .panic (.parseFailure ["s.ya"] (.importCycle ["s.ya"])) :=
  c9_thm 4 fsSelf ["s.ya"] fileSelf "s" none none [] rfl rfl rfl rfl

/-- C10: every REPL line parsed as `:browse`, `:quit` or a bare expression
evaluation returns exactly the reference table and definition store passed
in, while the declaration branch can return an updated namespace. -/
theorem c10_thm :
    (∀ (defs : Defs) (refs : Refs) (line : ReplLine) (cmd : Command)
       (refs2 : Refs) (defs2 : Defs),
       (parse_browse defs refs line = .ok (cmd, refs2, defs2) ∨
        parse_quit defs refs line = .ok (cmd, refs2, defs2) ∨
        parse_eval defs refs line = .ok (cmd, refs2, defs2)) →
       refs2 = refs ∧ defs2 = defs) ∧
    (∃ (line : ReplLine) (cmd : Command) (refs2 : Refs) (defs2 : Defs),
       parse_decl 0 fsEmpty [] [] (PackageEnv.new []) line =
         .ok (cmd, refs2, defs2) ∧ refs2 ≠ []) := by
  constructor
  · intro defs refs line cmd refs2 defs2 h
    rcases h with h | h | h
    · cases line <;> simp [parse_browse] at h
      exact ⟨h.2.1.symm, h.2.2.symm⟩
    · cases line <;> simp [parse_quit] at h
      exact ⟨h.2.1.symm, h.2.2.symm⟩
    · cases line with
      | exprTok uses t =>
        by_cases hc : (uses.all (fun u => (refsLookup u refs).isSome)) =
            true
        · simp [parse_eval, parse_expression, hc] at h
          exact ⟨h.2.1.symm, h.2.2.symm⟩
        · simp [parse_eval, parse_expression, hc] at h
      | _ => simp [parse_eval] at h
  · exact ⟨.declTok (.defS "x" [] ⟨1⟩ ⟨2⟩), _, _, _, rfl, by decide⟩

/-- C10, witness: a bare expression over the live table returns the
namespace unchanged. -/
theorem c10_witness :
    parse_eval [] refsX (.exprTok ["x"] ⟨7⟩) = .ok (.eval ⟨7⟩, refsX, []) ∧
    (refsX = refsX ∧ ([] : Defs) = []) :=
  ⟨rfl, c10_thm.1 [] refsX (.exprTok ["x"] ⟨7⟩) (.eval ⟨7⟩) refsX []
    (Or.inr (Or.inr rfl))⟩

end Yatima
